import Mathlib

/-!
Verification of the contributor-novelty analysis service
(`src/services/githubServices.ts` of the backend-test-api-design repository).

The embedding is shallow: the stateful service methods become explicit
state-passing functions over a `SState` record (cache contents, current
wall-clock time in milliseconds, and a log of upstream requests issued),
and the upstream GitHub REST API becomes an `Env` of response functions.
JavaScript `Date` values are modelled by a `DateTime` record at one-second
granularity, ordered by a millisecond-style linear stamp; `Date`
comparisons in the source are comparisons of epoch timestamps, which agree
with the lexicographic order on calendar fields for in-range values.
Fallible code returns `Except String` carrying the thrown error message.
-/

/-- `commit.author` inside the `commit` field of the GitHub payload. -/
structure CommitAuthorInfo where
  name : String
  email : String
  date : String
deriving DecidableEq, Repr

/-- The `commit` field of a GitHub commit payload. -/
structure CommitInfo where
  author : CommitAuthorInfo
deriving DecidableEq, Repr

/-- The top-level `author` field (`{login, id} | null` in the source). -/
structure AuthorInfo where
  login : String
  id : Nat
deriving DecidableEq, Repr

/-- `GitHubCommit` from the source: `author` is `null`able. -/
structure GitHubCommit where
  sha : String
  commit : CommitInfo
  author : Option AuthorInfo
deriving DecidableEq, Repr

/-- Calendar timestamp at one-second granularity; models a JS `Date`
(the source only ever constructs dates with whole-second precision). -/
structure DateTime where
  year : Nat
  month : Nat
  day : Nat
  hour : Nat
  minute : Nat
  second : Nat
deriving DecidableEq, Repr

/-- Linear stamp of a `DateTime`; order-isomorphic to the epoch-milliseconds
value a JS `Date` carries, for calendar-valid field values. -/
def DateTime.stamp (d : DateTime) : Nat :=
  ((((d.year * 13 + d.month) * 32 + d.day) * 24 + d.hour) * 60 + d.minute) * 60
    + d.second

/-- The `<` comparison the source applies to `Date` objects. -/
def dtLt (a b : DateTime) : Prop := a.stamp < b.stamp

instance : DecidablePred fun p : DateTime × DateTime => dtLt p.1 p.2 :=
  fun p => inferInstanceAs (Decidable (p.1.stamp < p.2.stamp))

instance dtLtDec (a b : DateTime) : Decidable (dtLt a b) :=
  inferInstanceAs (Decidable (a.stamp < b.stamp))

/-- Non-strict companion of `dtLt`. -/
def dtLe (a b : DateTime) : Prop := a.stamp ≤ b.stamp

/-- `Repository` from the source; `created_at` is modelled as an already
parsed `DateTime` (the source stores the ISO string and parses it with
`new Date(...)` on use). -/
structure Repository where
  name : String
  full_name : String
  created_at : DateTime
  default_branch : String
deriving DecidableEq, Repr

/-- `ContributorData` from the source. The `month` field is present iff a
truthy `month` argument was supplied (`...(month && { month })`). -/
structure ContributorData where
  org : String
  repository : String
  year : String
  month : Option String
  newContributors : Nat
deriving DecidableEq, Repr

/-- Values storable in the NodeCache instance (it is used at three types). -/
inductive CacheVal where
  | repoV : Repository → CacheVal
  | commitsV : List GitHubCommit → CacheVal
  | contribV : ContributorData → CacheVal
deriving DecidableEq, Repr

/-- One upstream HTTP request, as issued on the wire. -/
inductive UReq where
  | repoReq (org repo : String)
  | commitsReq (org repo : String) (since untl : Option String) (page : Nat)
deriving DecidableEq, Repr

/-- Cache entries: key, value, absolute expiry time (ms). -/
abbrev CacheEntries := List (String × CacheVal × Nat)

/-- Service state threaded through the methods: the NodeCache contents, the
current wall clock (`Date.now()`, in ms — the model executes calls
instantaneously), and the log of upstream requests actually dispatched. -/
structure SState where
  cache : CacheEntries
  now : Nat
  log : List UReq
deriving DecidableEq, Repr

/-- `cache.get(key)`: first entry for the key, a miss once expired. -/
def cacheGet (c : CacheEntries) (now : Nat) (key : String) : Option CacheVal :=
  match c.find? (fun e => e.1 == key) with
  | some (_, v, exp) => if now < exp then some v else none
  | none => none

/-- `cache.set(key, v, ttlSeconds)`: replaces any previous entry; the entry
expires `ttl` seconds after the current time. -/
def cacheSet (c : CacheEntries) (now : Nat) (key : String) (v : CacheVal)
    (ttl : Nat) : CacheEntries :=
  (key, v, now + ttl * 1000) :: c.filter (fun e => !(e.1 == key))

/-- Rate-governor state: `requestCount` and `lastResetTime` fields of the
service. -/
structure RateState where
  requestCount : Nat
  lastResetTime : Nat
deriving DecidableEq, Repr

/-- `checkRateLimit()` from the source, with `Date.now()` passed in
explicitly; returns the state after the method and the wall-clock time at
which it returns (later than `now` when the method slept). -/
def checkRateLimit (limit now : Nat) (st : RateState) : RateState × Nat :=
  let timeSinceReset := now - st.lastResetTime
  let st1 := if 3600000 ≤ timeSinceReset then
      { requestCount := 0, lastResetTime := now } else st
  if limit ≤ st1.requestCount then
    let waitTime := 3600000 - timeSinceReset
    ({ requestCount := 0, lastResetTime := now + waitTime }, now + waitTime)
  else (st1, now)

/-- The request interceptor's reserve step: `checkRateLimit()` followed by
`this.requestCount++`. -/
def reserve (limit now : Nat) (st : RateState) : RateState × Nat :=
  let p := checkRateLimit limit now st
  ({ p.1 with requestCount := p.1.requestCount + 1 }, p.2)

/-- Decimal digit characters. -/
def digitChar10 (d : Nat) : Char := Char.ofNat (48 + d)

/-- Little-endian base-10 digits with explicit fuel (so that the kernel can
evaluate it); agrees with `Nat.digits 10` once the fuel reaches `n`. -/
def digitsF : Nat → Nat → List Nat
  | 0, _ => []
  | fuel + 1, n => if n = 0 then [] else n % 10 :: digitsF fuel (n / 10)

/-- Decimal rendering of a natural number, as template interpolation
(`${page}`) renders it. -/
def natDec (n : Nat) : String :=
  if n = 0 then "0"
  else ⟨(digitsF n n).reverse.map digitChar10⟩

/-- Numeric parse of a decimal string (models `parseInt` / the numeric
fields of JS date parsing on canonical inputs). -/
def parseNat (s : String) : Nat :=
  s.data.foldl (fun a c => a * 10 + (c.toNat - 48)) 0

/-- Template rendering of a possibly-`undefined` string
(`` `${since}` `` renders `undefined` for an absent value). -/
def optStr (o : Option String) : String :=
  match o with
  | some s => s
  | none => "undefined"

/-- Cache key of `getRepository`. -/
def repoKey (org repo : String) : String :=
  "repo:" ++ org ++ ":" ++ repo

/-- Cache key of `getCommits`. -/
def commitsKey (org repo : String) (since untl : Option String) (page : Nat) :
    String :=
  "commits:" ++ org ++ ":" ++ repo ++ ":" ++ optStr since ++ ":" ++
    optStr untl ++ ":" ++ natDec page

/-- The `month || "all"` token of the analysis cache key (JS truthiness:
an absent or empty month renders as `"all"`). -/
def monthTok (month : Option String) : String :=
  match month with
  | some m => if m = "" then "all" else m
  | none => "all"

/-- Cache key of `getNewContributorsByMonth`. -/
def contribKey (org repo year : String) (month : Option String) : String :=
  "contributors:" ++ org ++ ":" ++ repo ++ ":" ++ year ++ ":" ++ monthTok month

/-- An upstream (axios) error: HTTP status when a response arrived, and the
`error.message` text. -/
structure HErr where
  status : Option Nat
  msg : String
deriving DecidableEq, Repr

/-- The environment: upstream responses (as observed after the retry
transport, which the claims under verification do not exercise), the JS
date parser restricted to epoch milliseconds, and the configured default
TTL (`CACHE_TTL`, default 86400 seconds). -/
structure Env where
  repoResp : String → String → Except HErr Repository
  commitsResp : String → String → Option String → Option String → Nat →
    Except HErr (List GitHubCommit)
  parseMs : String → Nat
  stdTTL : Nat

/-- JS truthiness filter on an optional string: `""` is falsy. -/
def truthyS (o : Option String) : Option String :=
  match o with
  | some s => if s = "" then none else some s
  | none => none

/-- `getRepository(org, repo)` from the source. Under the key discipline a
`repo:` key only ever stores a `repoV`, matching the unchecked
`cache.get<Repository>` cast. -/
def getRepository (env : Env) (org repo : String) (s : SState) :
    Except String Repository × SState :=
  let key := repoKey org repo
  match cacheGet s.cache s.now key with
  | some (CacheVal.repoV r) => (Except.ok r, s)
  | _ =>
    let s1 : SState := { s with log := s.log ++ [UReq.repoReq org repo] }
    match env.repoResp org repo with
    | Except.ok repository =>
        (Except.ok repository,
          { s1 with cache :=
              (cacheSet s1.cache s1.now key (CacheVal.repoV repository)
                env.stdTTL) })
    | Except.error e =>
        if e.status = some 404 then
          (Except.error ("Repository " ++ org ++ "/" ++ repo ++ " not found"),
            s1)
        else
          (Except.error ("Failed to fetch repository: " ++ e.msg), s1)

/-- The commit-page TTL choice of `getCommits`: 5 minutes when the `since`
boundary falls within the last 24 hours of wall-clock time, else 1 hour.
(`now - 86400000` is natural subtraction; realistic clocks exceed one day
past the epoch.) -/
def commitsCacheTime (env : Env) (now : Nat) (since : Option String) : Nat :=
  match truthyS since with
  | some str => if now - 86400000 < env.parseMs str then 300 else 3600
  | none => 3600

/-- `getCommits(org, repo, since, until, page)` from the source. An empty
`since`/`until` string is falsy and therefore not sent upstream; the cache
key renders the raw values. A 409 response (empty repository) returns `[]`
without caching. -/
def getCommits (env : Env) (org repo : String) (since untl : Option String)
    (page : Nat) (s : SState) : Except String (List GitHubCommit) × SState :=
  let key := commitsKey org repo since untl page
  match cacheGet s.cache s.now key with
  | some (CacheVal.commitsV cs) => (Except.ok cs, s)
  | _ =>
    let s1 : SState := { s with log :=
      (s.log ++ [UReq.commitsReq org repo (truthyS since) (truthyS untl) page]) }
    match env.commitsResp org repo (truthyS since) (truthyS untl) page with
    | Except.ok commits =>
        (Except.ok commits,
          { s1 with cache :=
              (cacheSet s1.cache s1.now key (CacheVal.commitsV commits)
                (commitsCacheTime env s1.now since)) })
    | Except.error e =>
        if e.status = some 404 then
          (Except.error ("Repository " ++ org ++ "/" ++ repo ++ " not found"),
            s1)
        else if e.status = some 409 then
          (Except.ok [], s1)
        else
          (Except.error ("Failed to fetch commits: " ++ e.msg), s1)

/-- The `while (hasMore)` loop of `getAllCommitsPaginated`. `budget` is the
number of further pages the `page > 1000` guard still allows, so that the
recursion is structural: the top-level call starts at `page = 1` with
`budget = 1000`, maintaining `budget = 1001 - page`. Exhausting the budget
is exactly the `page > 1000` break (warning elided). -/
def paginateAux (env : Env) (org repo : String) (since untl : String) :
    Nat → Nat → List GitHubCommit → SState →
      Except String (List GitHubCommit) × SState
  | 0, _, acc, s => (Except.ok acc, s)
  | budget + 1, page, acc, s =>
    match getCommits env org repo (some since) (some untl) page s with
    | (Except.error e, s1) => (Except.error e, s1)
    | (Except.ok commits, s1) =>
      if commits.length = 0 then (Except.ok acc, s1)
      else if commits.length < 100 then (Except.ok (acc ++ commits), s1)
      else if budget = 0 then (Except.ok (acc ++ commits), s1)
      else paginateAux env org repo since untl budget (page + 1)
        (acc ++ commits) s1

/-- `getAllCommitsPaginated(org, repo, since, until)` from the source. -/
def getAllCommitsPaginated (env : Env) (org repo : String)
    (since untl : String) (s : SState) :
    Except String (List GitHubCommit) × SState :=
  paginateAux env org repo since untl 1000 1 [] s

/-- Gregorian leap-year rule (what JS `Date` month arithmetic implements). -/
def isLeap (y : Nat) : Bool :=
  (y % 4 == 0 && y % 100 != 0) || y % 400 == 0

/-- Number of days of month `m` of year `y` in the Gregorian calendar. -/
def daysInMonth (y m : Nat) : Nat :=
  if m = 2 then (if isLeap y then 29 else 28)
  else if m = 4 ∨ m = 6 ∨ m = 9 ∨ m = 11 then 30
  else 31

/-- String left-padding with zeroes (`padStart(k, "0")`). -/
def padZ (k : Nat) (str : String) : String :=
  if str.length < k then (⟨List.replicate (k - str.length) '0'⟩ : String) ++ str
  else str

/-- `Date.prototype.toISOString()` of a whole-second `DateTime`. -/
def dtISO (d : DateTime) : String :=
  padZ 4 (natDec d.year) ++ "-" ++ padZ 2 (natDec d.month) ++ "-" ++
    padZ 2 (natDec d.day) ++ "T" ++ padZ 2 (natDec d.hour) ++ ":" ++
    padZ 2 (natDec d.minute) ++ ":" ++ padZ 2 (natDec d.second) ++ ".000Z"

/-- Period-boundary computation of `getNewContributorsByMonth` (steps using
`new Date`), for a UTC runtime. With a truthy month, the start is the first
of that month and the end is `new Date(y, m+1, 0, 23, 59, 59)` — day 0 of
the following month, which JS normalises to the last day of month `m`
(`daysInMonth`). Otherwise the whole calendar year. -/
def computePeriod (year : String) (month : Option String) :
    DateTime × DateTime :=
  match truthyS month with
  | some m =>
      let y := parseNat year
      let mn := parseNat m
      (⟨y, mn, 1, 0, 0, 0⟩, ⟨y, mn, daysInMonth y mn, 23, 59, 59⟩)
  | none =>
      let y := parseNat year
      (⟨y, 1, 1, 0, 0, 0⟩, ⟨y, 12, 31, 23, 59, 59⟩)

/-- The clamp `if (startDate < repoCreatedAt) startDate = repoCreatedAt`. -/
def clampStart (start created : DateTime) : DateTime :=
  if dtLt start created then created else start

/-- The truthy login of a commit, as tested by `commit.author?.login`:
absent when the `author` object is null or the login is the empty string. -/
def loginTruthy (c : GitHubCommit) : Option String :=
  match c.author with
  | some a => if a.login = "" then none else some a.login
  | none => none

/-- The `beforePeriodCommits.forEach` accumulation of
`existingContributors`. -/
def collectLogins (cs : List GitHubCommit) (acc : Finset String) :
    Finset String :=
  cs.foldl (fun acc c =>
    match loginTruthy c with
    | some l => insert l acc
    | none => acc) acc

/-- One step of the `periodCommits.forEach` loop over the pair
(existingContributors, newContributorsInPeriod). -/
def ncStep (st : Finset String × Finset String) (c : GitHubCommit) :
    Finset String × Finset String :=
  match loginTruthy c with
  | some l => if l ∈ st.1 then st else (insert l st.1, insert l st.2)
  | none => st

/-- The target-period loop of `getNewContributorsByMonth`, starting from a
given `existingContributors` set and an empty `newContributorsInPeriod`. -/
def processTarget (existing : Finset String) (cs : List GitHubCommit) :
    Finset String × Finset String :=
  cs.foldl ncStep (existing, ∅)

/-- The baseline stage of `getNewContributorsByMonth`: when the (clamped)
start lies strictly after the creation date, fetch `[createdAt, start]` and
collect the existing contributors; otherwise the set stays empty with no
fetch. -/
def baselinePhase (env : Env) (org repo : String) (created start : DateTime)
    (s : SState) : Except String (Finset String) × SState :=
  if dtLt created start then
    match getAllCommitsPaginated env org repo (dtISO created) (dtISO start) s
      with
    | (Except.error e, s1) => (Except.error e, s1)
    | (Except.ok cs, s1) => (Except.ok (collectLogins cs ∅), s1)
  else (Except.ok ∅, s)

/-- The body of the `try` block of `getNewContributorsByMonth`, without the
final result-caching step. -/
def analyzeCore (env : Env) (org repo year : String) (month : Option String)
    (s : SState) : Except String ContributorData × SState :=
  match getRepository env org repo s with
  | (Except.error e, s1) => (Except.error e, s1)
  | (Except.ok repository, s1) =>
    let created := repository.created_at
    let bounds := computePeriod year month
    let startD := clampStart bounds.1 created
    match baselinePhase env org repo created startD s1 with
    | (Except.error e, s2) => (Except.error e, s2)
    | (Except.ok existing, s2) =>
      match getAllCommitsPaginated env org repo (dtISO startD) (dtISO bounds.2)
        s2 with
      | (Except.error e, s3) => (Except.error e, s3)
      | (Except.ok periodCommits, s3) =>
        (Except.ok
          { org := org, repository := repo, year := year,
            month := truthyS month,
            newContributors := (processTarget existing periodCommits).2.card },
          s3)

/-- `getNewContributorsByMonth(org, repo, year, month)` from the source:
cache lookup, the analysis, result caching on success, and the
`Failed to analyze contributors` wrapping of any error. -/
def getNewContributorsByMonth (env : Env) (org repo year : String)
    (month : Option String) (s : SState) :
    Except String ContributorData × SState :=
  let key := contribKey org repo year month
  match cacheGet s.cache s.now key with
  | some (CacheVal.contribV d) => (Except.ok d, s)
  | _ =>
    match analyzeCore env org repo year month s with
    | (Except.ok result, s1) =>
        (Except.ok result,
          { s1 with cache :=
              (cacheSet s1.cache s1.now key (CacheVal.contribV result)
                env.stdTTL) })
    | (Except.error e, s1) =>
        (Except.error ("Failed to analyze contributors: " ++ e), s1)

/-! ### Specification-side notions and concrete scenario inputs -/

/-- Calendar validity of a `DateTime` (what JS `Date` normalisation keeps
its components within). -/
def validDT (d : DateTime) : Prop :=
  1 ≤ d.month ∧ d.month ≤ 12 ∧ 1 ≤ d.day ∧ d.day ≤ daysInMonth d.year d.month
    ∧ d.hour ≤ 23 ∧ d.minute ≤ 59 ∧ d.second ≤ 59

/-- A string free of the `:` separator used by the cache keys. -/
def noColon (s : String) : Prop := ':' ∉ s.data

/-- A well-formed month argument: absent, or a nonempty colon-free string
other than `"all"` (route validation only admits numerals `1`–`12`). -/
def monthOk (mo : Option String) : Prop :=
  match mo with
  | none => True
  | some m => m ≠ "" ∧ m ≠ "all" ∧ noColon m

/-- Spec-side contributor set: the distinct `authorLogin` values appearing
among the commits (a value is present whenever the `author` object is). -/
def loginsOf (cs : List GitHubCommit) : Finset String :=
  (cs.filterMap (fun c => c.author.map (fun a => a.login))).toFinset

/-- No commit carries an empty-string login (GitHub logins are nonempty;
an unattributable commit has a null `author` instead). -/
def cleanLogins (cs : List GitHubCommit) : Prop :=
  ∀ c ∈ cs, c.author.map AuthorInfo.login ≠ some ""

instance validDTDec (d : DateTime) : Decidable (validDT d) := by
  unfold validDT
  infer_instance

instance noColonDec (s : String) : Decidable (noColon s) := by
  unfold noColon
  infer_instance

instance monthOkDec (mo : Option String) : Decidable (monthOk mo) := by
  unfold monthOk
  cases mo <;> infer_instance

instance cleanLoginsDec (cs : List GitHubCommit) : Decidable (cleanLogins cs) := by
  unfold cleanLogins
  infer_instance

/-- A commit with no interesting content. -/
def blankCommit : GitHubCommit := ⟨"", ⟨⟨"", "", ""⟩⟩, none⟩

/-- Commit authored by login `A` (and similarly below). -/
def cmA : GitHubCommit := ⟨"a1", ⟨⟨"", "", ""⟩⟩, some ⟨"A", 1⟩⟩

def cmB : GitHubCommit := ⟨"b1", ⟨⟨"", "", ""⟩⟩, some ⟨"B", 2⟩⟩

def cmC : GitHubCommit := ⟨"c1", ⟨⟨"", "", ""⟩⟩, some ⟨"C", 3⟩⟩

def cmD : GitHubCommit := ⟨"d1", ⟨⟨"", "", ""⟩⟩, some ⟨"D", 4⟩⟩

/-- A commit the platform could not associate with an account. -/
def cmNoAuth : GitHubCommit := ⟨"n1", ⟨⟨"", "", ""⟩⟩, none⟩

/-- Repository created `2020-01-01T00:00:00Z`. -/
def demoRepo : Repository := ⟨"r", "o/r", ⟨2020, 1, 1, 0, 0, 0⟩, "main"⟩

/-- The concrete scenario of §8.5 of the spec: baseline authors {A, B},
June-2021 target authors {B, C, C, D}. -/
def demoEnv : Env where
  repoResp := fun _ _ => Except.ok demoRepo
  commitsResp := fun _ _ since _ page =>
    if page = 1 ∧ since = some (dtISO ⟨2020, 1, 1, 0, 0, 0⟩) then
      Except.ok [cmA, cmB]
    else if page = 1 ∧ since = some (dtISO ⟨2021, 6, 1, 0, 0, 0⟩) then
      Except.ok [cmB, cmC, cmC, cmD]
    else Except.ok []
  parseMs := fun _ => 0
  stdTTL := 86400

/-- Like `demoEnv`, but the target window holds a single authorless
commit. -/
def envNoAuth : Env where
  repoResp := fun _ _ => Except.ok demoRepo
  commitsResp := fun _ _ since _ page =>
    if page = 1 ∧ since = some (dtISO ⟨2021, 6, 1, 0, 0, 0⟩) then
      Except.ok [cmNoAuth]
    else Except.ok []
  parseMs := fun _ => 0
  stdTTL := 86400

/-- Page sequence sized [100, 100, 37]. -/
def env3 : Env where
  repoResp := fun _ _ => Except.ok demoRepo
  commitsResp := fun _ _ _ _ page =>
    Except.ok (List.replicate
      (if page = 1 ∨ page = 2 then 100 else if page = 3 then 37 else 0)
      blankCommit)
  parseMs := fun _ => 0
  stdTTL := 86400

/-- Every page is full: 100 commits each. -/
def env100 : Env where
  repoResp := fun _ _ => Except.ok demoRepo
  commitsResp := fun _ _ _ _ _ => Except.ok (List.replicate 100 blankCommit)
  parseMs := fun _ => 0
  stdTTL := 86400

/-- Upstream reports 409 (empty repository) on every commits request. -/
def env409 : Env where
  repoResp := fun _ _ => Except.ok demoRepo
  commitsResp := fun _ _ _ _ _ => Except.error ⟨some 409, "Git Repository is empty."⟩
  parseMs := fun _ => 0
  stdTTL := 86400

/-- Upstream fails every commits request with a server error. -/
def envErr : Env where
  repoResp := fun _ _ => Except.ok demoRepo
  commitsResp := fun _ _ _ _ _ =>
    Except.error ⟨some 500, "Request failed with status code 500"⟩
  parseMs := fun _ => 0
  stdTTL := 86400

/-- The initial service state: empty cache, empty request log. -/
def state0 : SState := ⟨[], 1000000000000, []⟩

/-! ### Cache lemmas -/

theorem find?_filter_of_imp {α : Type} (l : List α) (p q : α → Bool)
    (h : ∀ x, p x = true → q x = true) :
    (l.filter q).find? p = l.find? p := by
  induction l with
  | nil => rfl
  | cons a t ih =>
    by_cases hq : q a = true
    · rw [List.filter_cons_of_pos hq]
      by_cases hp : p a = true
      · simp [List.find?_cons, hp]
      · simp only [List.find?_cons, Bool.not_eq_true] at hp ⊢
        simp [hp, ih]
    · have hp : p a = false := by
        cases hpa : p a
        · rfl
        · exact absurd (h a hpa) hq
      rw [List.filter_cons_of_neg (by simp [hq])]
      simp [List.find?_cons, hp, ih]

theorem cacheGet_cacheSet_same (c : CacheEntries) (now : Nat) (k : String)
    (v : CacheVal) (ttl : Nat) (h : 0 < ttl) :
    cacheGet (cacheSet c now k v ttl) now k = some v := by
  unfold cacheGet cacheSet
  simp [List.find?_cons]
  omega

theorem cacheGet_cacheSet_ne (c : CacheEntries) (now t : Nat) (k k2 : String)
    (v : CacheVal) (ttl : Nat) (h : k2 ≠ k) :
    cacheGet (cacheSet c now k v ttl) t k2 = cacheGet c t k2 := by
  unfold cacheGet cacheSet
  have hne : (k == k2) = false := by simp [Ne.symm h]
  rw [List.find?_cons_of_neg _ (by simp [hne])]
  rw [find?_filter_of_imp]
  intro x hx
  simp only [beq_iff_eq] at hx
  simp [hx, h]

/-! ### Decimal digits, rendering and parsing -/

theorem digitsF_eq_digits (fuel n : Nat) (h : n ≤ fuel) :
    digitsF fuel n = Nat.digits 10 n := by
  induction fuel generalizing n with
  | zero =>
    have h0 : n = 0 := by omega
    subst h0
    simp [digitsF]
  | succ f ih =>
    unfold digitsF
    by_cases h0 : n = 0
    · simp [h0]
    · rw [if_neg h0, ih (n / 10) (by omega), Nat.digits_def' (by omega)
        (Nat.pos_of_ne_zero h0)]

theorem digitChar10_toNat (d : Nat) (h : d < 10) :
    (digitChar10 d).toNat - 48 = d := by
  interval_cases d <;> decide

theorem foldl_rev_ofDigits (L : List Nat) (a0 : Nat) :
    L.reverse.foldl (fun a d => a * 10 + d) a0 =
      a0 * 10 ^ L.length + Nat.ofDigits 10 L := by
  induction L generalizing a0 with
  | nil => simp
  | cons d t ih =>
    simp only [List.reverse_cons, List.foldl_append, List.foldl_cons,
      List.foldl_nil, ih, Nat.ofDigits_cons, List.length_cons]
    ring

theorem parseNat_natDec (n : Nat) : parseNat (natDec n) = n := by
  unfold natDec
  by_cases h0 : n = 0
  · simp [h0, parseNat]
  · rw [if_neg h0]
    unfold parseNat
    show ((digitsF n n).reverse.map digitChar10).foldl
      (fun a c => a * 10 + (c.toNat - 48)) 0 = n
    rw [List.foldl_map, digitsF_eq_digits n n (le_refl n)]
    have hlt : ∀ d ∈ Nat.digits 10 n, d < 10 :=
      fun d hd => Nat.digits_lt_base (by omega) hd
    have hcong : (Nat.digits 10 n).reverse.foldl
        (fun a d => a * 10 + ((digitChar10 d).toNat - 48)) 0 =
        (Nat.digits 10 n).reverse.foldl (fun a d => a * 10 + d) 0 := by
      apply List.foldl_ext
      intro a d hd
      rw [digitChar10_toNat d (hlt d (List.mem_reverse.mp hd))]
    rw [hcong, foldl_rev_ofDigits, Nat.ofDigits_digits]
    ring

theorem natDec_inj {m n : Nat} (h : natDec m = natDec n) : m = n := by
  have := congrArg parseNat h
  rwa [parseNat_natDec, parseNat_natDec] at this

/-! ### C4: the rate governor's reserve step -/

/-- C4: the reserve step (`checkRateLimit` plus the interceptor's
increment): after a full hour the counter resets to 0 with the window
restarted at `now` (and proceeds immediately, leaving the counter at 1);
at the limit within the hour, the caller is suspended exactly until the
window boundary `lastResetTime + 3600000`, counters reset, and the request
proceeds leaving the counter at 1; otherwise the counter is incremented
and the call returns at `now`. -/
theorem rate_reserve_cases (limit now : Nat) (st : RateState)
    (hmono : st.lastResetTime ≤ now) (hpos : 0 < limit) :
    (3600000 ≤ now - st.lastResetTime →
      checkRateLimit limit now st = (⟨0, now⟩, now) ∧
      reserve limit now st = (⟨1, now⟩, now)) ∧
    (now - st.lastResetTime < 3600000 → limit ≤ st.requestCount →
      reserve limit now st =
        (⟨1, st.lastResetTime + 3600000⟩, st.lastResetTime + 3600000)) ∧
    (now - st.lastResetTime < 3600000 → st.requestCount < limit →
      reserve limit now st = (⟨st.requestCount + 1, st.lastResetTime⟩, now)) := by
  refine ⟨fun h1 => ?_, fun h1 h2 => ?_, fun h1 h2 => ?_⟩
  · have h0 : ¬ (limit ≤ 0) := by omega
    simp [reserve, checkRateLimit, h1, h0]
  · have hc : ¬ (3600000 ≤ now - st.lastResetTime) := by omega
    have hw : now + (3600000 - (now - st.lastResetTime)) =
        st.lastResetTime + 3600000 := by omega
    simp [reserve, checkRateLimit, hc, h2, hw]
  · have hc : ¬ (3600000 ≤ now - st.lastResetTime) := by omega
    have h2n : ¬ (limit ≤ st.requestCount) := by omega
    simp [reserve, checkRateLimit, hc, h2n]

/-- Witness for C4: a concrete suspended call resumes exactly at the window
boundary with the counter at 1. -/
theorem rate_reserve_cases_witness :
    reserve 2 5000000 ⟨2, 2000000⟩ = (⟨1, 5600000⟩, 5600000) :=
  (rate_reserve_cases 2 5000000 ⟨2, 2000000⟩ (by decide) (by decide)).2.1
    (by decide) (by decide)

/-! ### Calendar lemmas, C6 and C7 -/

theorem daysInMonth_pos (y m : Nat) : 1 ≤ daysInMonth y m := by
  unfold daysInMonth
  split_ifs <;> omega

theorem daysInMonth_le_31 (y m : Nat) : daysInMonth y m ≤ 31 := by
  unfold daysInMonth
  split_ifs <;> omega

/-- C6: with a truthy month the analysis period is exactly that calendar
month — the start is the least valid instant of the month and the end the
greatest (at the one-second granularity the source works at); with no
month the period is the full calendar year; and the clamp replaces the
start by `createdAt` exactly when it precedes `createdAt`, so the start
used for the fetches never precedes `createdAt`. -/
theorem period_bounds_correct :
    (∀ (year : String) (mo : Option String) (m : String),
      truthyS mo = some m → 1 ≤ parseNat m → parseNat m ≤ 12 →
      validDT (computePeriod year mo).1 ∧ validDT (computePeriod year mo).2 ∧
      (computePeriod year mo).1 =
        ⟨parseNat year, parseNat m, 1, 0, 0, 0⟩ ∧
      (computePeriod year mo).2 =
        ⟨parseNat year, parseNat m,
          daysInMonth (parseNat year) (parseNat m), 23, 59, 59⟩ ∧
      (∀ d, validDT d → d.year = parseNat year → d.month = parseNat m →
        dtLe (computePeriod year mo).1 d ∧ dtLe d (computePeriod year mo).2)) ∧
    (∀ (year : String) (mo : Option String),
      truthyS mo = none →
      (computePeriod year mo).1 = ⟨parseNat year, 1, 1, 0, 0, 0⟩ ∧
      (computePeriod year mo).2 = ⟨parseNat year, 12, 31, 23, 59, 59⟩ ∧
      (∀ d, validDT d → d.year = parseNat year →
        dtLe (computePeriod year mo).1 d ∧ dtLe d (computePeriod year mo).2)) ∧
    (∀ start created : DateTime,
      (dtLt start created → clampStart start created = created) ∧
      (¬ dtLt start created → clampStart start created = start) ∧
      ¬ dtLt (clampStart start created) created) := by
  refine ⟨fun year mo m htr h1 h2 => ?_, fun year mo htr => ?_,
    fun start created => ?_⟩
  · have hcp : computePeriod year mo =
        (⟨parseNat year, parseNat m, 1, 0, 0, 0⟩,
         ⟨parseNat year, parseNat m,
           daysInMonth (parseNat year) (parseNat m), 23, 59, 59⟩) := by
      simp only [computePeriod, htr]
    rw [hcp]
    refine ⟨⟨h1, h2, le_refl 1, daysInMonth_pos _ _, by dsimp only; omega,
        by dsimp only; omega, by dsimp only; omega⟩,
      ⟨h1, h2, daysInMonth_pos _ _, le_refl _, by dsimp only; omega,
        by dsimp only; omega, by dsimp only; omega⟩,
      rfl, rfl, fun d hd hy hm => ?_⟩
    obtain ⟨hd1, hd2, hd3, hd4, hd5, hd6, hd7⟩ := hd
    rw [hy, hm] at hd4
    unfold dtLe DateTime.stamp
    dsimp only
    rw [hy, hm]
    constructor <;> omega
  · have hcp : computePeriod year mo =
        (⟨parseNat year, 1, 1, 0, 0, 0⟩,
         ⟨parseNat year, 12, 31, 23, 59, 59⟩) := by
      simp only [computePeriod, htr]
    rw [hcp]
    refine ⟨rfl, rfl, fun d hd hy => ?_⟩
    obtain ⟨hd1, hd2, hd3, hd4, hd5, hd6, hd7⟩ := hd
    have hdle : d.day ≤ 31 := le_trans hd4 (daysInMonth_le_31 _ _)
    unfold dtLe DateTime.stamp
    dsimp only
    rw [hy]
    constructor <;> omega
  · refine ⟨fun h => ?_, fun h => ?_, ?_⟩
    · unfold clampStart
      rw [if_pos h]
    · unfold clampStart
      rw [if_neg h]
    · unfold clampStart
      by_cases h : dtLt start created
      · rw [if_pos h]
        unfold dtLt
        omega
      · rw [if_neg h]
        exact h

/-- Witness for C6: June 2021 brackets a mid-month instant. -/
theorem period_bounds_correct_witness :
    dtLe (computePeriod "2021" (some "6")).1 ⟨2021, 6, 15, 12, 0, 0⟩ ∧
    dtLe (⟨2021, 6, 15, 12, 0, 0⟩ : DateTime) (computePeriod "2021" (some "6")).2 :=
  (period_bounds_correct.1 "2021" (some "6") "6" rfl (by decide)
    (by decide)).2.2.2.2 ⟨2021, 6, 15, 12, 0, 0⟩ (by decide) (by decide)
    (by decide)

/-- C7: when the clamped start coincides with the repository creation
date, the baseline phase returns the empty contributor set and leaves the
state — cache and upstream-request log — untouched: the baseline fetch is
skipped entirely. -/
theorem baseline_skipped (env : Env) (org repo : String)
    (created start0 : DateTime) (s : SState)
    (h : clampStart start0 created = created) :
    baselinePhase env org repo created (clampStart start0 created) s =
      (Except.ok ∅, s) := by
  rw [h]
  unfold baselinePhase
  rw [if_neg]
  unfold dtLt
  omega

/-- Witness for C7: a 2019 period start for a repository created in 2020
clamps to the creation instant and the baseline fetch is skipped. -/
theorem baseline_skipped_witness :
    baselinePhase demoEnv "o" "r" ⟨2020, 1, 1, 0, 0, 0⟩
      (clampStart ⟨2019, 1, 1, 0, 0, 0⟩ ⟨2020, 1, 1, 0, 0, 0⟩) state0 =
      (Except.ok ∅, state0) :=
  baseline_skipped demoEnv "o" "r" ⟨2020, 1, 1, 0, 0, 0⟩
    ⟨2019, 1, 1, 0, 0, 0⟩ state0 (by decide)

/-! ### Contributor-set folds, C1 and C2 -/

theorem loginTruthy_ne_empty (c : GitHubCommit) : loginTruthy c ≠ some "" := by
  unfold loginTruthy
  cases c.author with
  | none => simp
  | some a =>
    by_cases h : a.login = "" <;> simp [h]

theorem loginsOf_cons_none (c : GitHubCommit) (t : List GitHubCommit)
    (hc : c.author = none) : loginsOf (c :: t) = loginsOf t := by
  simp [loginsOf, hc]

theorem loginsOf_cons_some (c : GitHubCommit) (t : List GitHubCommit)
    (a : AuthorInfo) (hc : c.author = some a) :
    loginsOf (c :: t) = insert a.login (loginsOf t) := by
  simp [loginsOf, hc]

theorem processTarget_fold (cs : List GitHubCommit) :
    ∀ ex ns, cleanLogins cs →
      cs.foldl ncStep (ex, ns) =
        (ex ∪ loginsOf cs, ns ∪ (loginsOf cs \ ex)) := by
  induction cs with
  | nil =>
    intro ex ns _
    simp [loginsOf]
  | cons c t ih =>
    intro ex ns hcl
    have hclt : cleanLogins t := fun x hx => hcl x (List.mem_cons_of_mem _ hx)
    cases hc : c.author with
    | none =>
      have hlt : loginTruthy c = none := by simp [loginTruthy, hc]
      rw [List.foldl_cons]
      show List.foldl ncStep (ncStep (ex, ns) c) t = _
      rw [show ncStep (ex, ns) c = (ex, ns) by simp [ncStep, hlt]]
      rw [ih _ _ hclt, loginsOf_cons_none c t hc]
    | some a =>
      have ha : a.login ≠ "" := by
        have hm := hcl c (List.mem_cons_self c t)
        simp [hc] at hm
        exact hm
      have hlt : loginTruthy c = some a.login := by
        simp [loginTruthy, hc, ha]
      rw [List.foldl_cons, loginsOf_cons_some c t a hc]
      by_cases hmem : a.login ∈ ex
      · rw [show ncStep (ex, ns) c = (ex, ns) by simp [ncStep, hlt, hmem]]
        rw [ih _ _ hclt]
        simp only [Prod.mk.injEq]
        constructor
        · ext x
          by_cases hx : x = a.login <;> simp [hx, hmem]
        · ext x
          by_cases hx : x = a.login <;> simp [hx, hmem]
      · rw [show ncStep (ex, ns) c =
            (insert a.login ex, insert a.login ns) by
          simp [ncStep, hlt, hmem]]
        rw [ih _ _ hclt]
        simp only [Prod.mk.injEq]
        constructor
        · ext x
          by_cases hx : x = a.login <;> simp [hx, hmem]
        · ext x
          by_cases hx : x = a.login <;> simp [hx, hmem]

theorem collectLogins_eq (cs : List GitHubCommit) :
    ∀ acc, cleanLogins cs → collectLogins cs acc = acc ∪ loginsOf cs := by
  induction cs with
  | nil =>
    intro acc _
    simp [collectLogins, loginsOf]
  | cons c t ih =>
    intro acc hcl
    have hclt : cleanLogins t := fun x hx => hcl x (List.mem_cons_of_mem _ hx)
    unfold collectLogins
    rw [List.foldl_cons]
    cases hc : c.author with
    | none =>
      have hlt : loginTruthy c = none := by simp [loginTruthy, hc]
      rw [show (match loginTruthy c with
          | some l => insert l acc
          | none => acc) = acc by rw [hlt]]
      show collectLogins t acc = _
      rw [ih acc hclt, loginsOf_cons_none c t hc]
    | some a =>
      have ha : a.login ≠ "" := by
        have hm := hcl c (List.mem_cons_self c t)
        simp [hc] at hm
        exact hm
      have hlt : loginTruthy c = some a.login := by
        simp [loginTruthy, hc, ha]
      rw [show (match loginTruthy c with
          | some l => insert l acc
          | none => acc) = insert a.login acc by rw [hlt]]
      show collectLogins t (insert a.login acc) = _
      rw [ih _ hclt, loginsOf_cons_some c t a hc]
      ext x
      by_cases hx : x = a.login <;> simp [hx]

/-- C1: the new-contributor count is the cardinality of the set difference
between the distinct target-period logins and the baseline logins, each
target login counted once however many commits it authors; and the
concrete §8.5 scenario (created 2020-01-01, baseline {A, B}, June-2021
target {B, C, C, D}) yields `newContributors = 2` end-to-end. -/
theorem new_contributors_count :
    (∀ (base target : List GitHubCommit),
      cleanLogins base → cleanLogins target →
      (processTarget (collectLogins base ∅) target).2.card =
        (loginsOf target \ loginsOf base).card) ∧
    (getNewContributorsByMonth demoEnv "o" "r" "2021" (some "6") state0).1 =
      Except.ok ⟨"o", "r", "2021", some "6", 2⟩ := by
  constructor
  · intro base target hb ht
    unfold processTarget
    rw [processTarget_fold target _ _ ht, collectLogins_eq base ∅ hb]
    simp
  · rfl

/-- Witness for C1: the scenario's commit lists through the counting core
give exactly 2. -/
theorem new_contributors_count_witness :
    (processTarget (collectLogins [cmA, cmB] ∅) [cmB, cmC, cmC, cmD]).2.card
      = 2 := by
  rw [new_contributors_count.1 [cmA, cmB] [cmB, cmC, cmC, cmD]
    (by decide) (by decide)]
  decide

theorem collect_mem (cs : List GitHubCommit) :
    ∀ acc l, l ∈ collectLogins cs acc →
      l ∈ acc ∨ ∃ c ∈ cs, loginTruthy c = some l := by
  induction cs with
  | nil =>
    intro acc l h
    exact Or.inl (by simpa [collectLogins] using h)
  | cons c t ih =>
    intro acc l h
    unfold collectLogins at h
    rw [List.foldl_cons] at h
    cases hlt : loginTruthy c with
    | none =>
      rw [hlt] at h
      rcases ih acc l h with h1 | ⟨c2, hc2, he⟩
      · exact Or.inl h1
      · exact Or.inr ⟨c2, List.mem_cons_of_mem _ hc2, he⟩
    | some l0 =>
      rw [hlt] at h
      rcases ih (insert l0 acc) l h with h1 | ⟨c2, hc2, he⟩
      · rcases Finset.mem_insert.mp h1 with he | hacc
        · exact Or.inr ⟨c, List.mem_cons_self c t, by rw [hlt, he]⟩
        · exact Or.inl hacc
      · exact Or.inr ⟨c2, List.mem_cons_of_mem _ hc2, he⟩

theorem ncStep_fold_mem (cs : List GitHubCommit) :
    ∀ (st : Finset String × Finset String) (l : String),
      l ∈ (cs.foldl ncStep st).2 →
      l ∈ st.2 ∨ ∃ c ∈ cs, loginTruthy c = some l := by
  induction cs with
  | nil =>
    intro st l h
    exact Or.inl h
  | cons c t ih =>
    intro st l h
    rw [List.foldl_cons] at h
    cases hlt : loginTruthy c with
    | none =>
      rw [show ncStep st c = st by simp [ncStep, hlt]] at h
      rcases ih st l h with h1 | ⟨c2, hc2, he⟩
      · exact Or.inl h1
      · exact Or.inr ⟨c2, List.mem_cons_of_mem _ hc2, he⟩
    | some l0 =>
      by_cases hmem : l0 ∈ st.1
      · rw [show ncStep st c = st by simp [ncStep, hlt, hmem]] at h
        rcases ih st l h with h1 | ⟨c2, hc2, he⟩
        · exact Or.inl h1
        · exact Or.inr ⟨c2, List.mem_cons_of_mem _ hc2, he⟩
      · rw [show ncStep st c = (insert l0 st.1, insert l0 st.2) by
          simp [ncStep, hlt, hmem]] at h
        rcases ih _ l h with h1 | ⟨c2, hc2, he⟩
        · rcases Finset.mem_insert.mp h1 with he | hst
          · exact Or.inr ⟨c, List.mem_cons_self c t, by rw [hlt, he]⟩
          · exact Or.inl hst
        · exact Or.inr ⟨c2, List.mem_cons_of_mem _ hc2, he⟩

/-- C2: contributor sets never contain an empty or absent identity — every
member of the baseline set or of the new-contributor set is the truthy
login of an actual commit author, so authorless commits are excluded from
both; and a target period whose only commit lacks `authorLogin` yields
`newContributors = 0` end-to-end. -/
theorem absent_logins_excluded :
    (∀ (cs : List GitHubCommit) (acc : Finset String) (l : String),
      l ∈ collectLogins cs acc →
      l ∈ acc ∨ ∃ c ∈ cs, loginTruthy c = some l) ∧
    (∀ (ex : Finset String) (cs : List GitHubCommit) (l : String),
      l ∈ (processTarget ex cs).2 → ∃ c ∈ cs, loginTruthy c = some l) ∧
    (∀ (c : GitHubCommit) (l : String), loginTruthy c = some l →
      ∃ a, c.author = some a ∧ a.login = l ∧ l ≠ "") ∧
    (getNewContributorsByMonth envNoAuth "o" "r" "2021" (some "6") state0).1 =
      Except.ok ⟨"o", "r", "2021", some "6", 0⟩ := by
  refine ⟨fun cs acc l h => collect_mem cs acc l h,
    fun ex cs l h => ?_, fun c l h => ?_, rfl⟩
  · rcases ncStep_fold_mem cs (ex, ∅) l h with h1 | h2
    · exact absurd h1 (Finset.not_mem_empty l)
    · exact h2
  · unfold loginTruthy at h
    cases hc : c.author with
    | none =>
      rw [hc] at h
      exact absurd h (by simp)
    | some a =>
      rw [hc] at h
      by_cases ha : a.login = ""
      · simp only [ha, if_true, reduceIte] at h
        exact absurd h (by simp)
      · simp only [if_neg ha, Option.some.injEq] at h
        exact ⟨a, rfl, h, h ▸ ha⟩

/-! ### Cache-key structure: separators, kinds, injectivity -/

theorem colon_split (a : List Char) :
    ∀ (b r1 r2 : List Char), ':' ∉ a → ':' ∉ b →
      a ++ ':' :: r1 = b ++ ':' :: r2 → a = b ∧ r1 = r2 := by
  induction a with
  | nil =>
    intro b r1 r2 _ hb h
    cases b with
    | nil => simpa using h
    | cons y ys =>
      simp only [List.nil_append, List.cons_append, List.cons.injEq] at h
      exact absurd (by rw [← h.1]; exact List.mem_cons_self _ _) hb
  | cons x xs ih =>
    intro b r1 r2 ha hb h
    cases b with
    | nil =>
      simp only [List.cons_append, List.nil_append, List.cons.injEq] at h
      exact absurd (by rw [h.1]; exact List.mem_cons_self _ _) ha
    | cons y ys =>
      simp only [List.cons_append, List.cons.injEq] at h
      have hx : ':' ∉ xs := fun m => ha (List.mem_cons_of_mem _ m)
      have hy : ':' ∉ ys := fun m => hb (List.mem_cons_of_mem _ m)
      obtain ⟨h1, h2⟩ := ih ys r1 r2 hx hy h.2
      exact ⟨by rw [h.1, h1], h2⟩

theorem commitsKey_page_inj (o r : String) (si u : Option String) {p q : Nat}
    (h : commitsKey o r si u p = commitsKey o r si u q) : p = q := by
  unfold commitsKey at h
  have hd := congrArg String.data h
  rw [String.data_append, String.data_append] at hd
  exact natDec_inj (String.ext (List.append_cancel_left hd))

theorem take3_of_append (p x : String) (hp : 3 ≤ p.data.length) :
    (p ++ x).data.take 3 = p.data.take 3 := by
  rw [String.data_append]
  exact List.take_append_of_le_length hp

theorem repoKey_take3 (o r : String) :
    (repoKey o r).data.take 3 = ['r', 'e', 'p'] := by
  unfold repoKey
  rw [String.append_assoc, String.append_assoc,
    take3_of_append "repo:" _ (by decide)]
  decide

theorem commitsKey_take3 (o r : String) (si u : Option String) (p : Nat) :
    (commitsKey o r si u p).data.take 3 = ['c', 'o', 'm'] := by
  unfold commitsKey
  rw [String.append_assoc, String.append_assoc, String.append_assoc,
    String.append_assoc, String.append_assoc, String.append_assoc,
    String.append_assoc, String.append_assoc,
    take3_of_append "commits:" _ (by decide)]
  decide

theorem contribKey_take3 (o r y : String) (mo : Option String) :
    (contribKey o r y mo).data.take 3 = ['c', 'o', 'n'] := by
  unfold contribKey
  rw [String.append_assoc, String.append_assoc, String.append_assoc,
    String.append_assoc, String.append_assoc, String.append_assoc,
    take3_of_append "contributors:" _ (by decide)]
  decide

theorem repoKey_ne_commitsKey (o1 r1 o2 r2 : String) (si u : Option String)
    (p : Nat) : repoKey o1 r1 ≠ commitsKey o2 r2 si u p := by
  intro h
  have h3 := congrArg (fun s => s.data.take 3) h
  simp only [repoKey_take3, commitsKey_take3] at h3
  exact absurd h3 (by decide)

theorem repoKey_ne_contribKey (o1 r1 o2 r2 y : String) (mo : Option String) :
    repoKey o1 r1 ≠ contribKey o2 r2 y mo := by
  intro h
  have h3 := congrArg (fun s => s.data.take 3) h
  simp only [repoKey_take3, contribKey_take3] at h3
  exact absurd h3 (by decide)

theorem commitsKey_ne_contribKey (o1 r1 : String) (si u : Option String)
    (p : Nat) (o2 r2 y : String) (mo : Option String) :
    commitsKey o1 r1 si u p ≠ contribKey o2 r2 y mo := by
  intro h
  have h3 := congrArg (fun s => s.data.take 3) h
  simp only [commitsKey_take3, contribKey_take3] at h3
  exact absurd h3 (by decide)

theorem repoKey_inj {o1 r1 o2 r2 : String} (ho1 : noColon o1)
    (ho2 : noColon o2) (h : repoKey o1 r1 = repoKey o2 r2) :
    o1 = o2 ∧ r1 = r2 := by
  unfold repoKey at h
  have hd := congrArg String.data h
  have hcol : (":" : String).data = [':'] := rfl
  simp only [String.data_append, List.append_assoc, hcol,
    List.singleton_append] at hd
  have hd2 := List.append_cancel_left hd
  obtain ⟨h1, h2⟩ := colon_split _ _ _ _ ho1 ho2 hd2
  exact ⟨String.ext h1, String.ext h2⟩

theorem commitsKey_inj {o1 r1 o2 r2 : String} {si1 u1 si2 u2 : Option String}
    {p1 p2 : Nat} (ho1 : noColon o1) (hr1 : noColon r1) (ho2 : noColon o2)
    (hr2 : noColon r2) (hsl : (optStr si1).length = (optStr si2).length)
    (hul : (optStr u1).length = (optStr u2).length)
    (h : commitsKey o1 r1 si1 u1 p1 = commitsKey o2 r2 si2 u2 p2) :
    o1 = o2 ∧ r1 = r2 ∧ optStr si1 = optStr si2 ∧ optStr u1 = optStr u2 ∧
      p1 = p2 := by
  unfold commitsKey at h
  have hd := congrArg String.data h
  have hcol : (":" : String).data = [':'] := rfl
  simp only [String.data_append, List.append_assoc, hcol,
    List.singleton_append] at hd
  have hd2 := List.append_cancel_left hd
  obtain ⟨h1, hd3⟩ := colon_split _ _ _ _ ho1 ho2 hd2
  obtain ⟨h2, hd4⟩ := colon_split _ _ _ _ hr1 hr2 hd3
  obtain ⟨h3, hd5⟩ := List.append_inj hd4 hsl
  injection hd5 with hx hd6
  obtain ⟨h4, hd7⟩ := List.append_inj hd6 hul
  injection hd7 with hy hd8
  exact ⟨String.ext h1, String.ext h2, String.ext h3, String.ext h4,
    natDec_inj (String.ext hd8)⟩

theorem monthTok_inj {mo1 mo2 : Option String} (h1 : monthOk mo1)
    (h2 : monthOk mo2) (h : monthTok mo1 = monthTok mo2) : mo1 = mo2 := by
  cases mo1 with
  | none =>
    cases mo2 with
    | none => rfl
    | some m2 =>
      obtain ⟨hne, hnall, _⟩ := h2
      rw [show monthTok none = "all" from rfl,
        show monthTok (some m2) = m2 by simp [monthTok, hne]] at h
      exact absurd h.symm hnall
  | some m1 =>
    obtain ⟨hne1, hnall1, _⟩ := h1
    cases mo2 with
    | none =>
      rw [show monthTok (some m1) = m1 by simp [monthTok, hne1],
        show monthTok none = "all" from rfl] at h
      exact absurd h hnall1
    | some m2 =>
      obtain ⟨hne2, hnall2, _⟩ := h2
      rw [show monthTok (some m1) = m1 by simp [monthTok, hne1],
        show monthTok (some m2) = m2 by simp [monthTok, hne2]] at h
      rw [h]

theorem contribKey_inj {o1 r1 y1 o2 r2 y2 : String} {mo1 mo2 : Option String}
    (ho1 : noColon o1) (hr1 : noColon r1) (hy1 : noColon y1)
    (hm1 : monthOk mo1) (ho2 : noColon o2) (hr2 : noColon r2)
    (hy2 : noColon y2) (hm2 : monthOk mo2)
    (h : contribKey o1 r1 y1 mo1 = contribKey o2 r2 y2 mo2) :
    o1 = o2 ∧ r1 = r2 ∧ y1 = y2 ∧ mo1 = mo2 := by
  unfold contribKey at h
  have hd := congrArg String.data h
  have hcol : (":" : String).data = [':'] := rfl
  simp only [String.data_append, List.append_assoc, hcol,
    List.singleton_append] at hd
  have hd2 := List.append_cancel_left hd
  obtain ⟨h1, hd3⟩ := colon_split _ _ _ _ ho1 ho2 hd2
  obtain ⟨h2, hd4⟩ := colon_split _ _ _ _ hr1 hr2 hd3
  obtain ⟨h3, hd5⟩ := colon_split _ _ _ _ hy1 hy2 hd4
  exact ⟨String.ext h1, String.ext h2, String.ext h3,
    monthTok_inj hm1 hm2 (String.ext hd5)⟩

/-- C9 counterexample: key construction is not injective over arbitrary
parameter tuples — the distinct repository lookups `("a:b", "c")` and
`("a", "b:c")` build the same cache key `"repo:a:b:c"`. -/
theorem cache_key_collision_cex :
    repoKey "a:b" "c" = repoKey "a" "b:c" ∧
      ("a:b", "c") ≠ (("a", "b:c") : String × String) := by
  constructor
  · rfl
  · decide

/-- C9 (amended): keys of different kinds never collide; within a kind,
key construction is injective over parameters drawn from their intended
domains — colon-free org/repo/year (GitHub names admit only
`[a-zA-Z0-9._-]`), a month that is absent or a nonempty colon-free string
other than `"all"`, and since/until whose rendered tokens have equal
lengths (as ISO timestamps do). -/
theorem cache_keys_injective :
    (∀ o1 r1 o2 r2 si u p, repoKey o1 r1 ≠ commitsKey o2 r2 si u p) ∧
    (∀ o1 r1 o2 r2 y mo, repoKey o1 r1 ≠ contribKey o2 r2 y mo) ∧
    (∀ o1 r1 si u p o2 r2 y mo,
      commitsKey o1 r1 si u p ≠ contribKey o2 r2 y mo) ∧
    (∀ o1 r1 o2 r2, noColon o1 → noColon o2 →
      repoKey o1 r1 = repoKey o2 r2 → o1 = o2 ∧ r1 = r2) ∧
    (∀ o1 r1 si1 u1 p1 o2 r2 si2 u2 p2,
      noColon o1 → noColon r1 → noColon o2 → noColon r2 →
      (optStr si1).length = (optStr si2).length →
      (optStr u1).length = (optStr u2).length →
      commitsKey o1 r1 si1 u1 p1 = commitsKey o2 r2 si2 u2 p2 →
      o1 = o2 ∧ r1 = r2 ∧ optStr si1 = optStr si2 ∧ optStr u1 = optStr u2 ∧
        p1 = p2) ∧
    (∀ o1 r1 y1 mo1 o2 r2 y2 mo2,
      noColon o1 → noColon r1 → noColon y1 → monthOk mo1 →
      noColon o2 → noColon r2 → noColon y2 → monthOk mo2 →
      contribKey o1 r1 y1 mo1 = contribKey o2 r2 y2 mo2 →
      o1 = o2 ∧ r1 = r2 ∧ y1 = y2 ∧ mo1 = mo2) :=
  ⟨fun o1 r1 o2 r2 si u p => repoKey_ne_commitsKey o1 r1 o2 r2 si u p,
   fun o1 r1 o2 r2 y mo => repoKey_ne_contribKey o1 r1 o2 r2 y mo,
   fun o1 r1 si u p o2 r2 y mo => commitsKey_ne_contribKey o1 r1 si u p o2 r2 y mo,
   fun o1 r1 o2 r2 ho1 ho2 h => repoKey_inj ho1 ho2 h,
   fun o1 r1 si1 u1 p1 o2 r2 si2 u2 p2 ho1 hr1 ho2 hr2 hsl hul h =>
     commitsKey_inj ho1 hr1 ho2 hr2 hsl hul h,
   fun o1 r1 y1 mo1 o2 r2 y2 mo2 ho1 hr1 hy1 hm1 ho2 hr2 hy2 hm2 h =>
     contribKey_inj ho1 hr1 hy1 hm1 ho2 hr2 hy2 hm2 h⟩

/-- Witness for C9 (amended): concrete distinct colon-free repository
tuples produce distinct keys. -/
theorem cache_keys_injective_witness :
    repoKey "octo" "alpha" ≠ repoKey "octo" "beta" := fun h =>
  absurd (cache_keys_injective.2.2.2.1 "octo" "alpha" "octo" "beta"
    (by decide) (by decide) h).2 (by decide)

/-! ### Pagination: termination, call counts, the 1000-page cap (C3) -/

theorem getCommits_log_len (env : Env) (o r : String) (si u : Option String)
    (p : Nat) (s : SState) :
    (getCommits env o r si u p s).2.log.length ≤ s.log.length + 1 := by
  unfold getCommits
  cases hq : cacheGet s.cache s.now (commitsKey o r si u p) with
  | none =>
    simp only [hq]
    cases hr : env.commitsResp o r (truthyS si) (truthyS u) p with
    | ok cs => simp
    | error e =>
      dsimp only
      split_ifs <;> simp
  | some v =>
    cases v with
    | repoV x =>
      simp only [hq]
      cases hr : env.commitsResp o r (truthyS si) (truthyS u) p with
      | ok cs => simp
      | error e =>
        dsimp only
        split_ifs <;> simp
    | commitsV cs => simp [hq]
    | contribV x =>
      simp only [hq]
      cases hr : env.commitsResp o r (truthyS si) (truthyS u) p with
      | ok cs => simp
      | error e =>
        dsimp only
        split_ifs <;> simp

theorem paginateAux_log_len (env : Env) (o r σ υ : String) :
    ∀ (budget page : Nat) (acc : List GitHubCommit) (s : SState),
      (paginateAux env o r σ υ budget page acc s).2.log.length ≤
        s.log.length + budget := by
  intro budget
  induction budget with
  | zero =>
    intro page acc s
    simp [paginateAux]
  | succ b ih =>
    intro page acc s
    have hgc := getCommits_log_len env o r (some σ) (some υ) page s
    unfold paginateAux
    rcases hq : getCommits env o r (some σ) (some υ) page s with ⟨res, s1⟩
    rw [hq] at hgc
    cases res with
    | error e =>
      dsimp only at hgc ⊢
      omega
    | ok commits =>
      dsimp only at hgc ⊢
      by_cases h0 : commits.length = 0
      · rw [if_pos h0]
        dsimp only
        omega
      · rw [if_neg h0]
        by_cases h100 : commits.length < 100
        · rw [if_pos h100]
          dsimp only
          omega
        · rw [if_neg h100]
          by_cases hb : b = 0
          · rw [if_pos hb]
            dsimp only
            omega
          · rw [if_neg hb]
            have := ih (page + 1) (acc ++ commits) s1
            omega

theorem paginateAux_succ (env : Env) (o r σ υ : String) (b page : Nat)
    (acc : List GitHubCommit) (s : SState) :
    paginateAux env o r σ υ (b + 1) page acc s =
      match getCommits env o r (some σ) (some υ) page s with
      | (Except.error e, s1) => (Except.error e, s1)
      | (Except.ok commits, s1) =>
        if commits.length = 0 then (Except.ok acc, s1)
        else if commits.length < 100 then (Except.ok (acc ++ commits), s1)
        else if b = 0 then (Except.ok (acc ++ commits), s1)
        else paginateAux env o r σ υ b (page + 1) (acc ++ commits) s1 := rfl

theorem paginate100 (o r σ υ : String) :
    ∀ (budget page : Nat) (acc : List GitHubCommit) (s : SState),
      (∀ q, page ≤ q →
        cacheGet s.cache s.now (commitsKey o r (some σ) (some υ) q) = none) →
      (paginateAux env100 o r σ υ budget page acc s).1 =
        Except.ok (acc ++ List.replicate (budget * 100) blankCommit) ∧
      (paginateAux env100 o r σ υ budget page acc s).2.log =
        s.log ++ (List.range' page budget).map
          (fun q => UReq.commitsReq o r (truthyS (some σ))
            (truthyS (some υ)) q) := by
  intro budget
  induction budget with
  | zero =>
    intro page acc s hmiss
    simp [paginateAux]
  | succ b ih =>
    intro page acc s hmiss
    have hmiss0 : cacheGet s.cache s.now
        (commitsKey o r (some σ) (some υ) page) = none :=
      hmiss page (le_refl page)
    have hgc : getCommits env100 o r (some σ) (some υ) page s =
        (Except.ok (List.replicate 100 blankCommit),
          ⟨cacheSet s.cache s.now (commitsKey o r (some σ) (some υ) page)
              (CacheVal.commitsV (List.replicate 100 blankCommit))
              (commitsCacheTime env100 s.now (some σ)),
            s.now,
            s.log ++ [UReq.commitsReq o r (truthyS (some σ))
              (truthyS (some υ)) page]⟩) := by
      unfold getCommits
      dsimp only
      rw [hmiss0]
      rfl
    rw [paginateAux_succ, hgc]
    dsimp only
    rw [if_neg (by simp), if_neg (by simp)]
    by_cases hb : b = 0
    · subst hb
      rw [if_pos rfl]
      constructor
      · simp
      · dsimp only
        simp [List.range'_one]
    · rw [if_neg hb]
      have hmiss2 : ∀ q, page + 1 ≤ q →
          cacheGet (cacheSet s.cache s.now
              (commitsKey o r (some σ) (some υ) page)
              (CacheVal.commitsV (List.replicate 100 blankCommit))
              (commitsCacheTime env100 s.now (some σ))) s.now
            (commitsKey o r (some σ) (some υ) q) = none := by
        intro q hq
        have hne : commitsKey o r (some σ) (some υ) q ≠
            commitsKey o r (some σ) (some υ) page := fun he =>
          (by omega : q ≠ page) (commitsKey_page_inj o r (some σ) (some υ) he)
        rw [cacheGet_cacheSet_ne _ _ _ _ _ _ _ hne]
        exact hmiss q (by omega)
      obtain ⟨ih1, ih2⟩ := ih (page + 1)
        (acc ++ List.replicate 100 blankCommit)
        ⟨cacheSet s.cache s.now (commitsKey o r (some σ) (some υ) page)
            (CacheVal.commitsV (List.replicate 100 blankCommit))
            (commitsCacheTime env100 s.now (some σ)),
          s.now,
          s.log ++ [UReq.commitsReq o r (truthyS (some σ))
            (truthyS (some υ)) page]⟩
        hmiss2
      refine ⟨?_, ?_⟩
      · rw [ih1, List.append_assoc, ← List.replicate_add]
        have harith : 100 + b * 100 = (b + 1) * 100 := by ring
        rw [harith]
      · rw [ih2]
        dsimp only
        rw [List.range'_succ page b 1, List.map_cons]
        simp [List.append_assoc]

set_option maxRecDepth 8192 in
/-- C3: pagination is sequential from page 1 (the request log records the
consecutive page indices) and terminates on every page sequence: the page
sequence [100, 100, 37] yields exactly 3 upstream fetches and 237
aggregated commits; an all-100 sequence fetches exactly pages 1–1000 and
truncates at the cap with no further calls; and no aggregation ever issues
more than 1000 upstream requests. -/
theorem pagination_termination :
    ((getAllCommitsPaginated env3 "o" "r" "s" "u" state0).1 =
        Except.ok (List.replicate 237 blankCommit) ∧
      (getAllCommitsPaginated env3 "o" "r" "s" "u" state0).2.log =
        [UReq.commitsReq "o" "r" (some "s") (some "u") 1,
         UReq.commitsReq "o" "r" (some "s") (some "u") 2,
         UReq.commitsReq "o" "r" (some "s") (some "u") 3]) ∧
    (∀ (o r σ υ : String) (s : SState), s.cache = [] →
      (getAllCommitsPaginated env100 o r σ υ s).1 =
        Except.ok (List.replicate 100000 blankCommit) ∧
      (getAllCommitsPaginated env100 o r σ υ s).2.log =
        s.log ++ (List.range' 1 1000).map
          (fun q => UReq.commitsReq o r (truthyS (some σ))
            (truthyS (some υ)) q)) ∧
    (∀ (env : Env) (o r σ υ : String) (s : SState),
      (getAllCommitsPaginated env o r σ υ s).2.log.length ≤
        s.log.length + 1000) := by
  refine ⟨⟨by rfl, by rfl⟩, fun o r σ υ s hc => ?_, fun env o r σ υ s => ?_⟩
  · have h := paginate100 o r σ υ 1000 1 [] s (fun q hq => by rw [hc]; rfl)
    constructor
    · have h1 := h.1
      rw [List.nil_append] at h1
      norm_num at h1
      exact h1
    · exact h.2
  · exact paginateAux_log_len env o r σ υ 1000 1 [] s

/-- Witness for C3: from an empty cache, the all-100 environment is hit
exactly 1000 times. -/
theorem pagination_termination_witness :
    (getAllCommitsPaginated env100 "o" "r" "s" "u" ⟨[], 5, []⟩).2.log.length
      = 1000 := by
  have h := (pagination_termination.2.1 "o" "r" "s" "u" ⟨[], 5, []⟩ rfl).2
  rw [h]
  simp

/-! ### Result caching: idempotence (C5) and failure behaviour (C8) -/

theorem getNCBM_hit (env : Env) (o r y : String) (mo : Option String)
    (s : SState) (dd : ContributorData)
    (h : cacheGet s.cache s.now (contribKey o r y mo) =
      some (CacheVal.contribV dd)) :
    getNewContributorsByMonth env o r y mo s = (Except.ok dd, s) := by
  unfold getNewContributorsByMonth
  dsimp only
  rw [h]

theorem getNCBM_miss (env : Env) (o r y : String) (mo : Option String)
    (s : SState)
    (h : ∀ dd, cacheGet s.cache s.now (contribKey o r y mo) ≠
      some (CacheVal.contribV dd)) :
    getNewContributorsByMonth env o r y mo s =
      match analyzeCore env o r y mo s with
      | (Except.ok result, s1) =>
          (Except.ok result,
            { s1 with cache :=
                (cacheSet s1.cache s1.now (contribKey o r y mo)
                  (CacheVal.contribV result) env.stdTTL) })
      | (Except.error e, s1) =>
          (Except.error ("Failed to analyze contributors: " ++ e), s1) := by
  unfold getNewContributorsByMonth
  dsimp only
  cases hq : cacheGet s.cache s.now (contribKey o r y mo) with
  | none => rfl
  | some v =>
    cases v with
    | repoV x => rfl
    | commitsV x => rfl
    | contribV dd => exact absurd hq (h dd)

/-- C5: a second identical analysis call while the cached result is
unexpired (positive TTL) returns the identical result and the identical
state — in particular the upstream-request log is unchanged, so zero
additional upstream calls are made. -/
theorem analysis_idempotent (env : Env) (o r y : String) (mo : Option String)
    (s : SState) (d : ContributorData) (htl : 0 < env.stdTTL)
    (hok : (getNewContributorsByMonth env o r y mo s).1 = Except.ok d) :
    getNewContributorsByMonth env o r y mo
        (getNewContributorsByMonth env o r y mo s).2 =
      getNewContributorsByMonth env o r y mo s := by
  by_cases hhit : ∃ dd, cacheGet s.cache s.now (contribKey o r y mo) =
      some (CacheVal.contribV dd)
  · obtain ⟨dd, hq⟩ := hhit
    rw [getNCBM_hit env o r y mo s dd hq]
    exact getNCBM_hit env o r y mo s dd hq
  · have hmiss : ∀ dd, cacheGet s.cache s.now (contribKey o r y mo) ≠
        some (CacheVal.contribV dd) := fun dd hdd => hhit ⟨dd, hdd⟩
    have hM := getNCBM_miss env o r y mo s hmiss
    rcases ha : analyzeCore env o r y mo s with ⟨res, s1⟩
    rw [ha] at hM
    cases res with
    | error e =>
      rw [hM] at hok
      exact absurd hok (by simp)
    | ok result =>
      rw [hM]
      dsimp only
      have hhit2 : cacheGet
          (cacheSet s1.cache s1.now (contribKey o r y mo)
            (CacheVal.contribV result) env.stdTTL) s1.now
          (contribKey o r y mo) = some (CacheVal.contribV result) :=
        cacheGet_cacheSet_same s1.cache s1.now (contribKey o r y mo)
          (CacheVal.contribV result) env.stdTTL htl
      exact getNCBM_hit env o r y mo _ result hhit2

/-- Witness for C5: the second §8.5 scenario call returns the first call's
result/state pair unchanged. -/
theorem analysis_idempotent_witness :
    getNewContributorsByMonth demoEnv "o" "r" "2021" (some "6")
        (getNewContributorsByMonth demoEnv "o" "r" "2021" (some "6")
          state0).2 =
      getNewContributorsByMonth demoEnv "o" "r" "2021" (some "6") state0 :=
  analysis_idempotent demoEnv "o" "r" "2021" (some "6") state0
    ⟨"o", "r", "2021", some "6", 2⟩ (by decide) (by rfl)

theorem getRepository_frame (env : Env) (o r : String) (s : SState) :
    (getRepository env o r s).2.now = s.now ∧
    ∀ k, k ≠ repoKey o r →
      cacheGet (getRepository env o r s).2.cache s.now k =
        cacheGet s.cache s.now k := by
  unfold getRepository
  dsimp only
  cases hq : cacheGet s.cache s.now (repoKey o r) with
  | none =>
    cases hr : env.repoResp o r with
    | ok repository =>
      dsimp only
      exact ⟨rfl, fun k hk =>
        cacheGet_cacheSet_ne s.cache s.now s.now (repoKey o r) k _ _ hk⟩
    | error e =>
      dsimp only
      split_ifs <;> exact ⟨rfl, fun k hk => rfl⟩
  | some v =>
    cases v with
    | repoV x =>
      dsimp only
      exact ⟨rfl, fun k hk => rfl⟩
    | commitsV x =>
      cases hr : env.repoResp o r with
      | ok repository =>
        dsimp only
        exact ⟨rfl, fun k hk =>
          cacheGet_cacheSet_ne s.cache s.now s.now (repoKey o r) k _ _ hk⟩
      | error e =>
        dsimp only
        split_ifs <;> exact ⟨rfl, fun k hk => rfl⟩
    | contribV x =>
      cases hr : env.repoResp o r with
      | ok repository =>
        dsimp only
        exact ⟨rfl, fun k hk =>
          cacheGet_cacheSet_ne s.cache s.now s.now (repoKey o r) k _ _ hk⟩
      | error e =>
        dsimp only
        split_ifs <;> exact ⟨rfl, fun k hk => rfl⟩

theorem getCommits_frame (env : Env) (o r : String) (si u : Option String)
    (p : Nat) (s : SState) :
    (getCommits env o r si u p s).2.now = s.now ∧
    ∀ k, k ≠ commitsKey o r si u p →
      cacheGet (getCommits env o r si u p s).2.cache s.now k =
        cacheGet s.cache s.now k := by
  unfold getCommits
  dsimp only
  cases hq : cacheGet s.cache s.now (commitsKey o r si u p) with
  | none =>
    cases hr : env.commitsResp o r (truthyS si) (truthyS u) p with
    | ok cs =>
      dsimp only
      exact ⟨rfl, fun k hk =>
        cacheGet_cacheSet_ne s.cache s.now s.now (commitsKey o r si u p) k
          _ _ hk⟩
    | error e =>
      dsimp only
      split_ifs <;> exact ⟨rfl, fun k hk => rfl⟩
  | some v =>
    cases v with
    | commitsV x =>
      dsimp only
      exact ⟨rfl, fun k hk => rfl⟩
    | repoV x =>
      cases hr : env.commitsResp o r (truthyS si) (truthyS u) p with
      | ok cs =>
        dsimp only
        exact ⟨rfl, fun k hk =>
          cacheGet_cacheSet_ne s.cache s.now s.now (commitsKey o r si u p) k
            _ _ hk⟩
      | error e =>
        dsimp only
        split_ifs <;> exact ⟨rfl, fun k hk => rfl⟩
    | contribV x =>
      cases hr : env.commitsResp o r (truthyS si) (truthyS u) p with
      | ok cs =>
        dsimp only
        exact ⟨rfl, fun k hk =>
          cacheGet_cacheSet_ne s.cache s.now s.now (commitsKey o r si u p) k
            _ _ hk⟩
      | error e =>
        dsimp only
        split_ifs <;> exact ⟨rfl, fun k hk => rfl⟩

theorem paginateAux_frame (env : Env) (o r σ υ : String) :
    ∀ (budget page : Nat) (acc : List GitHubCommit) (s : SState) (k : String),
      (∀ q, k ≠ commitsKey o r (some σ) (some υ) q) →
      (paginateAux env o r σ υ budget page acc s).2.now = s.now ∧
      cacheGet (paginateAux env o r σ υ budget page acc s).2.cache s.now k =
        cacheGet s.cache s.now k := by
  intro budget
  induction budget with
  | zero =>
    intro page acc s k hk
    exact ⟨rfl, rfl⟩
  | succ b ih =>
    intro page acc s k hk
    rw [paginateAux_succ]
    rcases hgc : getCommits env o r (some σ) (some υ) page s with ⟨res, s1⟩
    have hf := getCommits_frame env o r (some σ) (some υ) page s
    rw [hgc] at hf
    cases res with
    | error e => exact ⟨hf.1, hf.2 k (hk page)⟩
    | ok commits =>
      dsimp only
      by_cases h0 : commits.length = 0
      · rw [if_pos h0]
        exact ⟨hf.1, hf.2 k (hk page)⟩
      · rw [if_neg h0]
        by_cases h100 : commits.length < 100
        · rw [if_pos h100]
          exact ⟨hf.1, hf.2 k (hk page)⟩
        · rw [if_neg h100]
          by_cases hb : b = 0
          · rw [if_pos hb]
            exact ⟨hf.1, hf.2 k (hk page)⟩
          · rw [if_neg hb]
            obtain ⟨ihn, ihc⟩ := ih (page + 1) (acc ++ commits) s1 k hk
            refine ⟨by rw [ihn, hf.1], ?_⟩
            rw [← hf.1, ihc, hf.1, hf.2 k (hk page)]

theorem baselinePhase_frame (env : Env) (o r : String)
    (created start : DateTime) (s : SState) (k : String)
    (hk : ∀ (σ υ : String) (q : Nat),
      k ≠ commitsKey o r (some σ) (some υ) q) :
    (baselinePhase env o r created start s).2.now = s.now ∧
    cacheGet (baselinePhase env o r created start s).2.cache s.now k =
      cacheGet s.cache s.now k := by
  unfold baselinePhase
  by_cases hlt : dtLt created start
  · rw [if_pos hlt]
    rcases hp : getAllCommitsPaginated env o r (dtISO created) (dtISO start) s
      with ⟨resP, s1⟩
    have hf := paginateAux_frame env o r (dtISO created) (dtISO start) 1000 1
      [] s k (fun q => hk _ _ q)
    unfold getAllCommitsPaginated at hp
    rw [hp] at hf
    cases resP <;> exact hf
  · rw [if_neg hlt]
    exact ⟨rfl, rfl⟩

theorem analyzeCore_frame (env : Env) (o r y : String) (mo : Option String)
    (s : SState) (k : String) (hk1 : k ≠ repoKey o r)
    (hk2 : ∀ (σ υ : String) (q : Nat),
      k ≠ commitsKey o r (some σ) (some υ) q) :
    (analyzeCore env o r y mo s).2.now = s.now ∧
    cacheGet (analyzeCore env o r y mo s).2.cache s.now k =
      cacheGet s.cache s.now k := by
  unfold analyzeCore
  rcases hR : getRepository env o r s with ⟨resR, s1⟩
  have hfR := getRepository_frame env o r s
  rw [hR] at hfR
  cases resR with
  | error e =>
    dsimp only at hfR ⊢
    exact ⟨hfR.1, hfR.2 k hk1⟩
  | ok repository =>
    dsimp only at hfR ⊢
    rcases hB : baselinePhase env o r repository.created_at
        (clampStart (computePeriod y mo).1 repository.created_at) s1
      with ⟨resB, s2⟩
    have hfB := baselinePhase_frame env o r repository.created_at
      (clampStart (computePeriod y mo).1 repository.created_at) s1 k hk2
    rw [hB] at hfB
    dsimp only at hfB
    have e2 := hfB.2
    rw [hfR.1] at e2
    cases resB with
    | error e =>
      dsimp only
      refine ⟨by rw [hfB.1, hfR.1], ?_⟩
      rw [e2, hfR.2 k hk1]
    | ok existing =>
      dsimp only
      rcases hT : getAllCommitsPaginated env o r
          (dtISO (clampStart (computePeriod y mo).1 repository.created_at))
          (dtISO (computePeriod y mo).2) s2 with ⟨resT, s3⟩
      have hfT := paginateAux_frame env o r
        (dtISO (clampStart (computePeriod y mo).1 repository.created_at))
        (dtISO (computePeriod y mo).2) 1000 1 [] s2 k (fun q => hk2 _ _ q)
      unfold getAllCommitsPaginated at hT
      rw [hT] at hfT
      dsimp only at hfT
      have e3 := hfT.2
      rw [hfB.1, hfR.1] at e3
      cases resT with
      | error e =>
        dsimp only
        refine ⟨by rw [hfT.1, hfB.1, hfR.1], ?_⟩
        rw [e3, e2, hfR.2 k hk1]
      | ok periodCommits =>
        dsimp only
        refine ⟨by rw [hfT.1, hfB.1, hfR.1], ?_⟩
        rw [e3, e2, hfR.2 k hk1]

/-- C8: any failure inside the analysis propagates wrapped as
`Failed to analyze contributors: …`, and on failure no `AnalysisResult` is
cached for the query key — the lookup of the analysis cache key is exactly
what it was before the call. -/
theorem analysis_failure_wrapped (env : Env) (o r y : String)
    (mo : Option String) (s : SState) (e : String) (s1 : SState)
    (h : getNewContributorsByMonth env o r y mo s = (Except.error e, s1)) :
    (∃ msg, e = "Failed to analyze contributors: " ++ msg ∧
      analyzeCore env o r y mo s = (Except.error msg, s1)) ∧
    cacheGet s1.cache s1.now (contribKey o r y mo) =
      cacheGet s.cache s.now (contribKey o r y mo) := by
  by_cases hhit : ∃ dd, cacheGet s.cache s.now (contribKey o r y mo) =
      some (CacheVal.contribV dd)
  · obtain ⟨dd, hq⟩ := hhit
    rw [getNCBM_hit env o r y mo s dd hq] at h
    exact absurd (congrArg Prod.fst h) (by simp)
  · have hmiss : ∀ dd, cacheGet s.cache s.now (contribKey o r y mo) ≠
        some (CacheVal.contribV dd) := fun dd hdd => hhit ⟨dd, hdd⟩
    have hM := getNCBM_miss env o r y mo s hmiss
    rcases ha : analyzeCore env o r y mo s with ⟨res, s2⟩
    rw [ha] at hM
    cases res with
    | ok result =>
      rw [hM] at h
      exact absurd (congrArg Prod.fst h) (by simp)
    | error msg =>
      rw [hM] at h
      dsimp only at h
      have he : Except.error ("Failed to analyze contributors: " ++ msg) =
          (Except.error e : Except String ContributorData) :=
        congrArg Prod.fst h
      have hs : s2 = s1 := congrArg Prod.snd h
      have hmsg : e = "Failed to analyze contributors: " ++ msg := by
        injection he with hz
        exact hz.symm
      have hfr := analyzeCore_frame env o r y mo s (contribKey o r y mo)
        (Ne.symm (repoKey_ne_contribKey o r o r y mo))
        (fun σ υ q =>
          Ne.symm (commitsKey_ne_contribKey o r (some σ) (some υ) q o r y mo))
      rw [ha] at hfr
      dsimp only at hfr
      refine ⟨⟨msg, hmsg, by rw [hs]⟩, ?_⟩
      rw [← hs, hfr.1, hfr.2]

/-- Witness for C8: a concrete upstream 500 failure leaves the analysis
cache key unpopulated. -/
theorem analysis_failure_wrapped_witness :
    cacheGet (getNewContributorsByMonth envErr "o" "r" "2021" (some "6")
        state0).2.cache
      (getNewContributorsByMonth envErr "o" "r" "2021" (some "6")
        state0).2.now (contribKey "o" "r" "2021" (some "6")) =
    cacheGet state0.cache state0.now (contribKey "o" "r" "2021" (some "6")) :=
  (analysis_failure_wrapped envErr "o" "r" "2021" (some "6") state0
    ("Failed to analyze contributors: " ++
      "Failed to fetch commits: Request failed with status code 500")
    (getNewContributorsByMonth envErr "o" "r" "2021" (some "6") state0).2
    (by rfl)).2

/-! ### Empty-repository handling (C10) -/

theorem commitsCacheTime_pos (env : Env) (now : Nat) (si : Option String) :
    0 < commitsCacheTime env now si := by
  unfold commitsCacheTime
  cases h : truthyS si with
  | none =>
    simp only [h]
    omega
  | some str =>
    simp only [h]
    split_ifs <;> omega

/-- C10: on an upstream 409 (empty repository) and a cache miss,
`getCommits` returns the empty list without error and without writing any
cache entry — the state changes only by the logged request — so an
immediately repeated identical request contacts upstream again; by
contrast, a successful fetch always leaves its page cached under the
commits key. -/
theorem empty_repo_not_cached (env : Env) (o r : String)
    (si u : Option String) (p : Nat) (s : SState) (e : HErr)
    (hmiss : cacheGet s.cache s.now (commitsKey o r si u p) = none)
    (hresp : env.commitsResp o r (truthyS si) (truthyS u) p = Except.error e)
    (h409 : e.status = some 409) :
    (getCommits env o r si u p s =
      (Except.ok [], ⟨s.cache, s.now,
        s.log ++ [UReq.commitsReq o r (truthyS si) (truthyS u) p]⟩)) ∧
    (getCommits env o r si u p
        ⟨s.cache, s.now,
          s.log ++ [UReq.commitsReq o r (truthyS si) (truthyS u) p]⟩ =
      (Except.ok [], ⟨s.cache, s.now,
        s.log ++ [UReq.commitsReq o r (truthyS si) (truthyS u) p,
          UReq.commitsReq o r (truthyS si) (truthyS u) p]⟩)) ∧
    (∀ (env2 : Env) (cs : List GitHubCommit),
      env2.commitsResp o r (truthyS si) (truthyS u) p = Except.ok cs →
      cacheGet ((getCommits env2 o r si u p s).2).cache s.now
        (commitsKey o r si u p) = some (CacheVal.commitsV cs)) := by
  have hgen : ∀ st : SState,
      cacheGet st.cache st.now (commitsKey o r si u p) = none →
      getCommits env o r si u p st = (Except.ok [],
        ⟨st.cache, st.now,
          st.log ++ [UReq.commitsReq o r (truthyS si) (truthyS u) p]⟩) := by
    intro st hm
    unfold getCommits
    dsimp only
    rw [hm, hresp]
    dsimp only
    rw [if_neg (by rw [h409]; decide), if_pos h409]
  refine ⟨hgen s hmiss, ?_, ?_⟩
  · have h2 := hgen ⟨s.cache, s.now,
      s.log ++ [UReq.commitsReq o r (truthyS si) (truthyS u) p]⟩ hmiss
    rw [h2]
    simp
  · intro env2 cs hok
    unfold getCommits
    dsimp only
    rw [hmiss, hok]
    dsimp only
    exact cacheGet_cacheSet_same s.cache s.now (commitsKey o r si u p)
      (CacheVal.commitsV cs) (commitsCacheTime env2 s.now si)
      (commitsCacheTime_pos env2 s.now si)

/-- Witness for C10: the all-409 environment returns an empty page twice,
logging one upstream request each time against an unchanged cache. -/
theorem empty_repo_not_cached_witness :
    getCommits env409 "o" "r" (some "s") (some "u") 1
        ⟨[], 7, [UReq.commitsReq "o" "r" (some "s") (some "u") 1]⟩ =
      (Except.ok [], ⟨[], 7,
        [UReq.commitsReq "o" "r" (some "s") (some "u") 1,
         UReq.commitsReq "o" "r" (some "s") (some "u") 1]⟩) :=
  (empty_repo_not_cached env409 "o" "r" (some "s") (some "u") 1 ⟨[], 7, []⟩
    ⟨some 409, "Git Repository is empty."⟩ (by rfl) (by rfl) (by rfl)).2.1

/-- Witness for C2: a set member produced by the target loop traces back
to a commit with a present, nonempty login. -/
theorem absent_logins_excluded_witness :
    ∃ c ∈ [cmNoAuth, cmB], loginTruthy c = some "B" :=
  absent_logins_excluded.2.1 ∅ [cmNoAuth, cmB] "B" (by decide)
